import Mathlib

/-!
# Verification of the ksc-go bid hierarchy / validation / distribution core

Shallow embedding of the reconstruction-and-reconciliation engine of the
`lostboys08/ksc-go` repository:

* `backend/internal/service/bid_import.go` — row classification, the
  single-pass stack-based hierarchy builder (`buildBidItems`) and
  `calculateUnitPrice`;
* the validation/distribution service file (`ValidateBudgetHierarchy`,
  `ValidateMonthlyAmounts`, `DistributeParentQty`) together with the SQL
  queries it runs (`GetParentItems`, `GetDirectChildren`,
  `GetChildrenWithPayApps`, `GetParentPayAppForMonth`,
  `GetPayAppMonthsForJob`) and the `pay_application_cumulative` view.

Modelling conventions:

* `shopspring/decimal` values are modelled as `ℚ`.  `decimal.Div` rounds
  the exact quotient to 16 decimal digits (half away from zero) and
  `StringFixed n` rounds to `n` digits; both are modelled by `roundDec`.
* Database `NUMERIC` columns always parse back with
  `decimal.NewFromString`, so the dead parse-error branches of the
  validators/distributor are not represented; spreadsheet cells that can
  genuinely fail to parse are modelled as `Option ℚ`.
* `uuid.New()` item ids are modelled by the item creation counter (ids are
  fresh and unique; only equality of ids is ever used).
* Go slices used as stacks (`stack[len(stack)-1]` is the top) are modelled
  as Lean lists with the head as the top of the stack.
-/

/-- Round a rational to `n` decimal digits, half away from zero.  This is
the rounding used by `decimal.DivRound` (via `decimal.Div` with
`DivisionPrecision = 16`) and by `decimal.Decimal.StringFixed`. -/
def roundDec (n : ℕ) (q : ℚ) : ℚ :=
  if 0 ≤ q then (⌊q * 10 ^ n + 1 / 2⌋ : ℤ) / (10 ^ n : ℚ)
  else -((⌊-q * 10 ^ n + 1 / 2⌋ : ℤ) / (10 ^ n : ℚ))

/-- `decimal.Div`: division carried out to 16 decimal digits of precision
(rounded half away from zero). -/
def divD (a b : ℚ) : ℚ := roundDec 16 (a / b)

/-- `budgetTolerance = 0.01` from `bid_import.go`
(`decimal.NewFromFloat(0.01)` is exactly `1/100`). -/
def budgetTolerance : ℚ := 1 / 100

/-- `var tolerance = decimal.NewFromFloat(0.01)` from the validation
service file. -/
def tolerance : ℚ := 1 / 100

/-- One flattened spreadsheet row as `buildBidItems` sees it.  String
fields hold the already-trimmed cell text (`getCellValue` trims); a blank
cell is `""`.  `budget` is the value of
`decimal.NewFromString(cleanNumeric(cell))` with both errors ignored, so
an unparsable budget cell enters as `0` exactly as in the Go.
`scheduledValue` and `quantity` are the `parseNumericField` results
consumed by `calculateUnitPrice`: `none` models a cleaned cell string that
`decimal.NewFromString` rejects (a cell rejected by `cleanNumeric` itself
becomes the string "0", i.e. `some 0`). -/
structure Row where
  description : String
  itemNumber : String
  costMethodRaw : String
  productionRateRaw : String
  budget : ℚ
  scheduledValue : Option ℚ
  quantity : Option ℚ
  deriving DecidableEq

/-- `strings.EqualFold`, modelled as per-character case-insensitive
equality (the comparands in the classifier are plain ASCII literals). -/
def eqFold (a b : String) : Bool :=
  a.data.map Char.toLower == b.data.map Char.toLower

/-- The row classifier from `buildBidItems`: the if/else-if chain that
determines `costMethod` and `canHaveChildren` for one row. -/
def classifyRow (r : Row) : String × Bool :=
  if r.itemNumber ≠ "" then ("Pay Item", true)
  else if eqFold r.costMethodRaw "Detail" then ("Detail", true)
  else if eqFold r.costMethodRaw "Subcontracted" then ("Subcontracted", false)
  else if r.costMethodRaw = "" ∧ r.productionRateRaw ≠ "" then ("Crew", true)
  else (if r.costMethodRaw ≠ "" then r.costMethodRaw else "Cost", false)

/-- `calculateUnitPrice`: `scheduled_value / qty` via `decimal.Div`
(16-digit precision) rendered with `StringFixed(4)`; returns 0 when either
field fails to parse or when the quantity is zero. -/
def calculateUnitPrice (scheduled qty : Option ℚ) : ℚ :=
  match scheduled with
  | none => 0
  | some sv =>
    match qty with
    | none => 0
    | some qv => if qv = 0 then 0 else roundDec 4 (divD sv qv)

/-- One produced `database.InsertBidItemParams`, restricted to the fields
the verified claims mention.  The generated UUID is modelled by
`sortOrder` (= the value of `itemCounter` when the item was created). -/
structure BidItem where
  sortOrder : ℕ
  parentId : Option ℕ
  itemNumber : String
  description : String
  costMethod : String
  budget : ℚ
  scheduledValue : Option ℚ
  qty : Option ℚ
  unitPrice : ℚ
  deriving DecidableEq

/-- `stackEntry`: parent context during hierarchy parsing.  `owner` is the
id (creation index) of the owning item, `target` its budget, `sum` the
running total of its children's budgets. -/
structure StackEntry where
  owner : ℕ
  target : ℚ
  sum : ℚ
  deriving DecidableEq

/-- The loop state of `buildBidItems`: the accumulated `items` slice, the
parent `stack` (head = top) and `itemCounter`. -/
structure BuildState where
  items : List BidItem
  stack : List StackEntry
  counter : ℕ
  deriving DecidableEq

/-- STEP 1 of `buildBidItems`: pop completed parents — while the stack is
non-empty and the top frame satisfies `sum >= target - tolerance`, pop
it. -/
def popCompleted : List StackEntry → List StackEntry
  | [] => []
  | f :: rest => if f.target - budgetTolerance ≤ f.sum then popCompleted rest else f :: rest

/-- `generateItemNumber`: keep a non-blank item number, otherwise generate
`AUTO-<counter>`. -/
def generateItemNumber (existing : String) (counter : ℕ) : String :=
  if existing ≠ "" then existing else "AUTO-" ++ toString counter

/-- The body of the row loop of `buildBidItems` for a single row: skip
blank-description rows; otherwise classify, pop completed parents, assign
the parent (adding this row's budget to the new top frame's running sum),
create the item, and push a frame when the item can have children and has
strictly positive budget. -/
def processRow (st : BuildState) (r : Row) : BuildState :=
  if r.description = "" then st
  else
    let cls := classifyRow r
    let k := st.counter + 1
    let popped := popCompleted st.stack
    let assigned : Option ℕ × List StackEntry :=
      match popped with
      | [] => (none, [])
      | f :: rest => (some f.owner, { f with sum := f.sum + r.budget } :: rest)
    let it : BidItem :=
      { sortOrder := k
        parentId := assigned.1
        itemNumber := generateItemNumber r.itemNumber k
        description := r.description
        costMethod := cls.1
        budget := r.budget
        scheduledValue := r.scheduledValue
        qty := r.quantity
        unitPrice := calculateUnitPrice r.scheduledValue r.quantity }
    { items := st.items ++ [it]
      stack := if cls.2 ∧ 0 < r.budget then ⟨k, r.budget, 0⟩ :: assigned.2 else assigned.2
      counter := k }

/-- `buildBidItems`: the single forward pass over all data rows. -/
def buildBidItems (rows : List Row) : List BidItem :=
  (rows.foldl processRow ⟨[], [], 0⟩).items

/-! ## Step-level description of `buildBidItems` -/

/-- The item created for a non-skipped row: its id/`sortOrder` is the
incremented counter, and its parent is the owner of the frame on top of
the stack after the pop phase (none if the stack emptied). -/
def newItem (st : BuildState) (r : Row) : BidItem :=
  { sortOrder := st.counter + 1
    parentId := ((popCompleted st.stack).head?).map (·.owner)
    itemNumber := generateItemNumber r.itemNumber (st.counter + 1)
    description := r.description
    costMethod := (classifyRow r).1
    budget := r.budget
    scheduledValue := r.scheduledValue
    qty := r.quantity
    unitPrice := calculateUnitPrice r.scheduledValue r.quantity }

/-- The stack after the pop phase and the parent-assignment phase of a
non-skipped row: the popped stack with the row's budget added to the new
top frame's running sum. -/
def assignedStack (st : BuildState) (r : Row) : List StackEntry :=
  match popCompleted st.stack with
  | [] => []
  | f :: rest => { f with sum := f.sum + r.budget } :: rest

/-- The stack after the push phase of a non-skipped row. -/
def pushedStack (st : BuildState) (r : Row) : List StackEntry :=
  if (classifyRow r).2 ∧ 0 < r.budget then
    ⟨st.counter + 1, r.budget, 0⟩ :: assignedStack st r
  else assignedStack st r

lemma processRow_eq (st : BuildState) (r : Row) (hd : ¬r.description = "") :
    processRow st r = ⟨st.items ++ [newItem st r], pushedStack st r, st.counter + 1⟩ := by
  simp only [processRow, if_neg hd, newItem, pushedStack, assignedStack]
  cases hp : popCompleted st.stack <;> simp [hp]

lemma processRow_skip (st : BuildState) (r : Row) (hd : r.description = "") :
    processRow st r = st := by
  simp [processRow, hd]

/-! ## Facts about the pop phase -/

lemma popCompleted_suffix (s : List StackEntry) : popCompleted s <:+ s := by
  induction s with
  | nil => exact List.suffix_refl _
  | cons f rest ih =>
    rw [popCompleted]
    by_cases hc : f.target - budgetTolerance ≤ f.sum
    · rw [if_pos hc]
      exact ih.trans (List.suffix_cons f rest)
    · rw [if_neg hc]

lemma mem_of_mem_popCompleted {s : List StackEntry} {f : StackEntry}
    (h : f ∈ popCompleted s) : f ∈ s :=
  (popCompleted_suffix s).mem h

/-- Shape invariant of the builder stack: every frame strictly below the
top has target strictly above the tolerance, and the top frame either has
a running sum of zero (it was pushed after the last pop phase) or also has
target above the tolerance. -/
def stackShape : List StackEntry → Prop
  | [] => True
  | f :: rest => (f.sum = 0 ∨ budgetTolerance < f.target) ∧
      ∀ g ∈ rest, budgetTolerance < g.target

/-- After a pop phase on a well-shaped stack, every surviving frame —
in particular the frame that will own the next item — has target
strictly above the tolerance. -/
lemma popCompleted_target_gt {s : List StackEntry} (hs : stackShape s) :
    ∀ f ∈ popCompleted s, budgetTolerance < f.target := by
  induction s with
  | nil => intro f hf; simp [popCompleted] at hf
  | cons f rest ih =>
    obtain ⟨hhead, htail⟩ := hs
    rw [popCompleted]
    by_cases hc : f.target - budgetTolerance ≤ f.sum
    · rw [if_pos hc]
      refine ih ?_
      cases rest with
      | nil => trivial
      | cons g r2 =>
        exact ⟨Or.inr (htail g (by simp)), fun g' hg' => htail g' (by simp [hg'])⟩
    · rw [if_neg hc]
      intro g hg
      rcases List.mem_cons.mp hg with rfl | hg'
      · rcases hhead with h0 | hgt
        · rw [h0] at hc
          have := lt_of_not_le hc
          linarith [this]
        · exact hgt
      · exact htail g hg'

lemma assignedStack_owner_target {st : BuildState} {r : Row} {f : StackEntry}
    (hf : f ∈ assignedStack st r) :
    ∃ f0 ∈ popCompleted st.stack, f0.owner = f.owner ∧ f0.target = f.target := by
  unfold assignedStack at hf
  cases hp : popCompleted st.stack with
  | nil => rw [hp] at hf; simp at hf
  | cons f0 rest =>
    rw [hp] at hf
    rcases List.mem_cons.mp hf with rfl | hmem
    · exact ⟨f0, List.mem_cons_self f0 rest, rfl, rfl⟩
    · exact ⟨f, List.mem_cons.mpr (Or.inr hmem), rfl, rfl⟩

lemma assignedStack_target_gt {st : BuildState} {r : Row} (hs : stackShape st.stack) :
    ∀ f ∈ assignedStack st r, budgetTolerance < f.target := by
  intro f hf
  obtain ⟨f0, hf0, -, ht⟩ := assignedStack_owner_target hf
  exact ht ▸ popCompleted_target_gt hs f0 hf0

/-- The full loop invariant of `buildBidItems`:
item ids/`sortOrder`s are exactly `1..n` in creation order, the counter
counts the created items, every stack frame's owner is a created item
whose budget is the frame's target, the stack is well-shaped, and every
assigned parent reference points to an earlier item whose budget is
strictly above the tolerance. -/
def BuildInv (st : BuildState) : Prop :=
  st.items.map (·.sortOrder) = List.range' 1 st.items.length ∧
  st.counter = st.items.length ∧
  (∀ f ∈ st.stack, ∃ it ∈ st.items, it.sortOrder = f.owner ∧ it.budget = f.target) ∧
  stackShape st.stack ∧
  (∀ it ∈ st.items, ∀ p, it.parentId = some p →
    ∃ par ∈ st.items, par.sortOrder = p ∧ p < it.sortOrder ∧ budgetTolerance < par.budget)

lemma sortOrder_bounds {st : BuildState}
    (hrange : st.items.map (·.sortOrder) = List.range' 1 st.items.length)
    {it : BidItem} (hit : it ∈ st.items) :
    1 ≤ it.sortOrder ∧ it.sortOrder < st.items.length + 1 := by
  have hm : it.sortOrder ∈ st.items.map (·.sortOrder) := List.mem_map_of_mem _ hit
  rw [hrange] at hm
  have := List.mem_range'_1.mp hm
  omega

lemma buildInv_processRow {st : BuildState} (r : Row) (h : BuildInv st) :
    BuildInv (processRow st r) := by
  by_cases hd : r.description = ""
  · rw [processRow_skip st r hd]; exact h
  · rw [processRow_eq st r hd]
    obtain ⟨hrange, hcount, hframes, hshape, hparent⟩ := h
    have hgt := popCompleted_target_gt hshape
    refine ⟨?_, ?_, ?_, ?_, ?_⟩
    · -- sortOrder enumeration extends by one
      show (st.items ++ [newItem st r]).map (·.sortOrder) =
        List.range' 1 (st.items ++ [newItem st r]).length
      rw [List.map_append, hrange, List.length_append]
      simp only [List.map_cons, List.map_nil, List.length_cons, List.length_nil]
      rw [List.range'_concat]
      simp [newItem, hcount, Nat.add_comm]
    · simp [hcount]
    · -- every frame's owner is a created item with the frame's target
      intro f hf
      show ∃ it ∈ st.items ++ [newItem st r], it.sortOrder = f.owner ∧ it.budget = f.target
      unfold pushedStack at hf
      have hAssigned : ∀ g ∈ assignedStack st r,
          ∃ it ∈ st.items ++ [newItem st r], it.sortOrder = g.owner ∧ it.budget = g.target := by
        intro g hg
        obtain ⟨f0, hf0, ho, ht⟩ := assignedStack_owner_target hg
        obtain ⟨it, hit, hso, hb⟩ := hframes f0 (mem_of_mem_popCompleted hf0)
        exact ⟨it, List.mem_append_left _ hit, ho ▸ hso, ht ▸ hb⟩
      by_cases hc : (classifyRow r).2 ∧ 0 < r.budget
      · rw [if_pos hc] at hf
        rcases List.mem_cons.mp hf with rfl | hmem
        · refine ⟨newItem st r, List.mem_append_right _ (List.mem_singleton_self _), rfl, rfl⟩
        · exact hAssigned f hmem
      · rw [if_neg hc] at hf
        exact hAssigned f hf
    · -- the new stack is well shaped
      show stackShape (pushedStack st r)
      unfold pushedStack
      by_cases hc : (classifyRow r).2 ∧ 0 < r.budget
      · rw [if_pos hc]
        exact ⟨Or.inl rfl, assignedStack_target_gt hshape⟩
      · rw [if_neg hc]
        unfold assignedStack
        cases hp : popCompleted st.stack with
        | nil => trivial
        | cons f0 rest =>
          refine ⟨Or.inr ?_, ?_⟩
          · exact hgt f0 (by rw [hp]; exact List.mem_cons_self f0 rest)
          · intro g hg
            exact hgt g (by rw [hp]; exact List.mem_cons.mpr (Or.inr hg))
    · -- every parent pointer goes to an earlier, above-tolerance item
      intro it hit p hp
      rcases List.mem_append.mp hit with hold | hnew
      · obtain ⟨par, hpar, h1, h2, h3⟩ := hparent it hold p hp
        exact ⟨par, List.mem_append_left _ hpar, h1, h2, h3⟩
      · rw [List.mem_singleton.mp hnew] at hp ⊢
        cases hq : popCompleted st.stack with
        | nil => rw [newItem] at hp; simp [hq] at hp
        | cons f0 rest =>
          have hpo : p = f0.owner := by
            rw [newItem] at hp; simp [hq] at hp; exact hp.symm
          obtain ⟨par, hpar, hso, hb⟩ := hframes f0
            (mem_of_mem_popCompleted (by rw [hq]; exact List.mem_cons_self f0 rest))
          have hlt : budgetTolerance < f0.target :=
            hgt f0 (by rw [hq]; exact List.mem_cons_self f0 rest)
          refine ⟨par, List.mem_append_left _ hpar, hpo ▸ hso, ?_, hb ▸ hlt⟩
          have := (sortOrder_bounds hrange hpar).2
          rw [hso, ← hpo] at this
          simp only [newItem, hcount]
          omega
lemma buildInv_foldl (rows : List Row) (st : BuildState) (h : BuildInv st) :
    BuildInv (rows.foldl processRow st) := by
  induction rows generalizing st with
  | nil => exact h
  | cons r rows ih => exact ih _ (buildInv_processRow r h)

lemma buildInv_init : BuildInv ⟨[], [], 0⟩ := by
  refine ⟨by simp, by simp, by simp, ?_, by simp⟩
  show stackShape []
  trivial

lemma foldl_descriptions (rows : List Row) (st : BuildState) :
    (rows.foldl processRow st).items.map (·.description) =
      st.items.map (·.description) ++
        (rows.filter (fun r => r.description ≠ "")).map (·.description) := by
  induction rows generalizing st with
  | nil => simp
  | cons r rows ih =>
    rw [List.foldl_cons, ih]
    by_cases hd : r.description = ""
    · rw [processRow_skip st r hd]
      simp [List.filter_cons, hd]
    · rw [processRow_eq st r hd]
      simp [List.filter_cons, hd, newItem]

/-! ## Example inputs from the specification -/

/-- Build a `Row` from description, item number, cost method, production
rate and budget, with no scheduled value / quantity cells. -/
def mkRow (d iN cM pR : String) (b : ℚ) : Row :=
  { description := d, itemNumber := iN, costMethodRaw := cM, productionRateRaw := pR,
    budget := b, scheduledValue := none, quantity := none }

/-- The 3-level example:
Pay Item(1000) / Detail A(1000) / Detail B(600) / Labor(600) /
Detail C(400) / Material(400). -/
def exampleRows : List Row :=
  [ mkRow "Pay Item" "1" "" "" 1000
  , mkRow "Detail A" "" "Detail" "" 1000
  , mkRow "Detail B" "" "Detail" "" 600
  , mkRow "Labor" "" "Labor" "" 600
  , mkRow "Detail C" "" "Detail" "" 400
  , mkRow "Material" "" "Material" "" 400 ]

/-- The zero-budget-branch example: a Detail row with budget 0 between a
Pay Item and a plain cost row. -/
def zeroBudgetRows : List Row :=
  [ mkRow "Pay Item" "1" "" "" 1000
  , mkRow "Detail Z" "" "Detail" "" 0
  , mkRow "Cost X" "" "" "" 50 ]

/-- A generic data row used to instantiate hypotheses of the per-row
theorems. -/
def plainRow : Row := mkRow "W" "" "" "" 5

/-- A row with a blank description. -/
def blankRow : Row := mkRow "" "" "" "" 7

/-- Claim C1: for every state and non-skipped row, the builder first pops
completed frames (`popCompleted` is the while loop over
`sum >= target - 0.01`), and only then assigns the parent: the new item is
a root when the popped stack is empty, and otherwise its parent is the
owner of the new top frame, whose running sum grows by the row's budget;
and on the 3-level example Detail B pops after Labor so that Detail C
parents to Detail A. -/
theorem claim1_pop_before_assign :
    (∀ (st : BuildState) (r : Row), ¬r.description = "" →
      ∃ it : BidItem, (processRow st r).items = st.items ++ [it] ∧
        (match popCompleted st.stack with
         | [] => it.parentId = none
         | f :: rest => it.parentId = some f.owner ∧
             ({ f with sum := f.sum + r.budget } :: rest) <:+ (processRow st r).stack)) ∧
    (buildBidItems exampleRows).map (fun it => (it.sortOrder, it.parentId)) =
      [(1, none), (2, some 1), (3, some 2), (4, some 3), (5, some 2), (6, some 5)] := by
  constructor
  · intro st r hd
    refine ⟨newItem st r, by rw [processRow_eq st r hd], ?_⟩
    rw [processRow_eq st r hd]
    cases hq : popCompleted st.stack with
    | nil => simp [newItem, hq]
    | cons f rest =>
      refine ⟨by simp [newItem, hq], ?_⟩
      show _ <:+ pushedStack st r
      unfold pushedStack assignedStack
      rw [hq]
      by_cases hc : (classifyRow r).2 ∧ 0 < r.budget
      · rw [if_pos hc]
        exact List.suffix_cons _ _
      · rw [if_neg hc]
  · norm_num +decide [buildBidItems, exampleRows, mkRow, processRow, popCompleted,
      classifyRow, budgetTolerance, generateItemNumber, calculateUnitPrice]

theorem claim1_witness :
    ∃ it : BidItem,
      (processRow ⟨[], [], 0⟩ plainRow).items = (⟨[], [], 0⟩ : BuildState).items ++ [it] ∧
      (match popCompleted (⟨[], [], 0⟩ : BuildState).stack with
       | [] => it.parentId = none
       | f :: rest => it.parentId = some f.owner ∧
           ({ f with sum := f.sum + plainRow.budget } :: rest) <:+
             (processRow ⟨[], [], 0⟩ plainRow).stack) :=
  claim1_pop_before_assign.1 ⟨[], [], 0⟩ plainRow (by decide)

/-- Claim C2: after a non-skipped row, the resulting stack is the
assigned stack with a fresh frame `{owner = the new item, target = its
budget, runningSum = 0}` on top exactly when the classification allows
children and the budget is strictly positive; and on the zero-budget
example the Detail row with budget 0 is created and parented but never
pushed, so the following cost row parents to the Pay Item. -/
theorem claim2_push_iff :
    (∀ (st : BuildState) (r : Row), ¬r.description = "" →
      (processRow st r).stack =
        if (classifyRow r).2 ∧ 0 < r.budget then
          ⟨st.counter + 1, r.budget, 0⟩ :: assignedStack st r
        else assignedStack st r) ∧
    (buildBidItems zeroBudgetRows).map (fun it => (it.sortOrder, it.parentId)) =
      [(1, none), (2, some 1), (3, some 1)] := by
  constructor
  · intro st r hd
    rw [processRow_eq st r hd]
    rfl
  · norm_num +decide [buildBidItems, zeroBudgetRows, mkRow, processRow, popCompleted,
      classifyRow, budgetTolerance, generateItemNumber, calculateUnitPrice]

theorem claim2_witness :
    (processRow ⟨[], [], 0⟩ plainRow).stack =
      if (classifyRow plainRow).2 ∧ 0 < plainRow.budget then
        ⟨(⟨[], [], 0⟩ : BuildState).counter + 1, plainRow.budget, 0⟩ ::
          assignedStack ⟨[], [], 0⟩ plainRow
      else assignedStack ⟨[], [], 0⟩ plainRow :=
  claim2_push_iff.1 ⟨[], [], 0⟩ plainRow (by decide)

/-- Claim C3: the builder produces exactly one item per non-blank row, in
the same relative order (same description sequence), with `sortOrder`
exactly the strictly increasing enumeration `1..n`; a blank-description
row is a complete no-op; and every non-null parent reference points to an
item produced earlier (smaller `sortOrder`), so the output is a
cycle-free forest. -/
theorem claim3_order_and_forest : ∀ rows : List Row,
    (buildBidItems rows).map (·.description) =
      (rows.filter (fun r => r.description ≠ "")).map (·.description) ∧
    (buildBidItems rows).map (·.sortOrder) =
      List.range' 1 (rows.filter (fun r => r.description ≠ "")).length ∧
    (∀ (st : BuildState) (r : Row), r.description = "" → processRow st r = st) ∧
    (∀ it ∈ buildBidItems rows, ∀ p, it.parentId = some p →
      ∃ par ∈ buildBidItems rows, par.sortOrder = p ∧ p < it.sortOrder) := by
  intro rows
  obtain ⟨hrange, hcount, -, -, hparent⟩ := buildInv_foldl rows ⟨[], [], 0⟩ buildInv_init
  have hdesc := foldl_descriptions rows ⟨[], [], 0⟩
  refine ⟨?_, ?_, fun st r => processRow_skip st r, ?_⟩
  · simpa [buildBidItems] using hdesc
  · have hlen : (buildBidItems rows).length =
        (rows.filter (fun r => r.description ≠ "")).length := by
      have := congrArg List.length hdesc
      simpa [buildBidItems] using this
    rw [← hlen]
    exact hrange
  · intro it hit p hp
    obtain ⟨par, hpar, h1, h2, -⟩ := hparent it hit p hp
    exact ⟨par, hpar, h1, h2⟩

theorem claim3_witness : processRow ⟨[], [], 0⟩ blankRow = ⟨[], [], 0⟩ :=
  (claim3_order_and_forest []).2.2.1 ⟨[], [], 0⟩ blankRow rfl

/-- Claim C10: no produced item's parent ever has a budget at or below the
0.01 tolerance — a frame pushed for an item with budget in `(0, 0.01]` is
popped by the next pop phase before any parent assignment, so every
assigned parent's budget is strictly above `budgetTolerance`. -/
theorem claim10_no_low_budget_parent : ∀ rows : List Row,
    ∀ it ∈ buildBidItems rows, ∀ p, it.parentId = some p →
      ∀ par ∈ buildBidItems rows, par.sortOrder = p → budgetTolerance < par.budget := by
  intro rows it hit p hp par hpar hso
  obtain ⟨hrange, -, -, -, hparent⟩ := buildInv_foldl rows ⟨[], [], 0⟩ buildInv_init
  obtain ⟨par0, hpar0, hso0, -, hb0⟩ := hparent it hit p hp
  have hnodup : ((rows.foldl processRow ⟨[], [], 0⟩).items.map (·.sortOrder)).Nodup := by
    rw [hrange]
    exact List.nodup_range' _ _
  have heq : par = par0 :=
    List.inj_on_of_nodup_map hnodup hpar hpar0 (by rw [hso, hso0])
  rw [heq]
  exact hb0

theorem claim10_witness :
    budgetTolerance <
      ({ sortOrder := 1, parentId := none, itemNumber := "1",
         description := "Pay Item", costMethod := "Pay Item", budget := 1000,
         scheduledValue := none, qty := none, unitPrice := 0 } : BidItem).budget :=
  claim10_no_low_budget_parent exampleRows
    { sortOrder := 2, parentId := some 1, itemNumber := "AUTO-2",
      description := "Detail A", costMethod := "Detail", budget := 1000,
      scheduledValue := none, qty := none, unitPrice := 0 }
    (by norm_num +decide [buildBidItems, exampleRows, mkRow, processRow, popCompleted,
      classifyRow, budgetTolerance, generateItemNumber, calculateUnitPrice])
    1 rfl
    { sortOrder := 1, parentId := none, itemNumber := "1",
      description := "Pay Item", costMethod := "Pay Item", budget := 1000,
      scheduledValue := none, qty := none, unitPrice := 0 }
    (by norm_num +decide [buildBidItems, exampleRows, mkRow, processRow, popCompleted,
      classifyRow, budgetTolerance, generateItemNumber, calculateUnitPrice])
    rfl

/-- Claim C6: the classifier is total (a Lean function) and applies the
five rules in priority order with the first match winning:
(1) non-blank item number → Pay Item with children;
(2) cost method case-insensitively "Detail" → Detail with children;
(3) cost method case-insensitively "Subcontracted" → Subcontracted, no
children; (4) blank cost method with non-blank production rate → Crew
with children; (5) otherwise the raw cost method if non-blank else
"Cost", no children. -/
theorem claim6_classifier_rules : ∀ r : Row,
    (r.itemNumber ≠ "" → classifyRow r = ("Pay Item", true)) ∧
    (r.itemNumber = "" → eqFold r.costMethodRaw "Detail" = true →
      classifyRow r = ("Detail", true)) ∧
    (r.itemNumber = "" → eqFold r.costMethodRaw "Detail" = false →
      eqFold r.costMethodRaw "Subcontracted" = true →
      classifyRow r = ("Subcontracted", false)) ∧
    (r.itemNumber = "" → r.costMethodRaw = "" → r.productionRateRaw ≠ "" →
      classifyRow r = ("Crew", true)) ∧
    (r.itemNumber = "" → eqFold r.costMethodRaw "Detail" = false →
      eqFold r.costMethodRaw "Subcontracted" = false →
      ¬(r.costMethodRaw = "" ∧ r.productionRateRaw ≠ "") →
      classifyRow r =
        (if r.costMethodRaw ≠ "" then r.costMethodRaw else "Cost", false)) := by
  intro r
  refine ⟨?_, ?_, ?_, ?_, ?_⟩
  · intro h1
    simp [classifyRow, h1]
  · intro h1 h2
    simp [classifyRow, h1, h2]
  · intro h1 h2 h3
    simp [classifyRow, h1, h2, h3]
  · intro h1 h2 h3
    have hd : eqFold "" "Detail" = false := by decide
    have hs : eqFold "" "Subcontracted" = false := by decide
    simp [classifyRow, h1, h2, h3, hd, hs]
  · intro h1 h2 h3 h4
    simp [classifyRow, h1, h2, h3, h4]

theorem claim6_witness : classifyRow (mkRow "Crew row" "" "" "2.5" 0) = ("Crew", true) :=
  (claim6_classifier_rules (mkRow "Crew row" "" "" "2.5" 0)).2.2.2.1 rfl rfl (by decide)

/-! ## Unit price -/

lemma roundDec_eq_of_nonneg (n : ℕ) (q : ℚ) (m : ℤ) (hq : 0 ≤ q)
    (h1 : (m : ℚ) ≤ q * 10 ^ n + 1 / 2) (h2 : q * 10 ^ n + 1 / 2 < m + 1) :
    roundDec n q = m / 10 ^ n := by
  rw [roundDec, if_pos hq]
  congr 1
  exact_mod_cast Int.floor_eq_iff.mpr ⟨h1, h2⟩

lemma roundDec_eq_of_neg (n : ℕ) (q : ℚ) (m : ℤ) (hq : ¬0 ≤ q)
    (h1 : (m : ℚ) ≤ -q * 10 ^ n + 1 / 2) (h2 : -q * 10 ^ n + 1 / 2 < m + 1) :
    roundDec n q = -(m / 10 ^ n) := by
  rw [roundDec, if_neg hq]
  congr 2
  exact_mod_cast Int.floor_eq_iff.mpr ⟨h1, h2⟩

/-- Every produced item's `unitPrice` is `calculateUnitPrice` of its own
scheduled-value and quantity cells. -/
lemma build_unitPrice (rows : List Row) (st : BuildState)
    (h : ∀ it ∈ st.items, it.unitPrice = calculateUnitPrice it.scheduledValue it.qty) :
    ∀ it ∈ (rows.foldl processRow st).items,
      it.unitPrice = calculateUnitPrice it.scheduledValue it.qty := by
  induction rows generalizing st with
  | nil => exact h
  | cons r rows ih =>
    rw [List.foldl_cons]
    refine ih _ ?_
    by_cases hd : r.description = ""
    · rw [processRow_skip st r hd]
      exact h
    · rw [processRow_eq st r hd]
      intro it hit
      rcases List.mem_append.mp hit with hold | hnew
      · exact h it hold
      · rw [List.mem_singleton.mp hnew]
        rfl

/-- A row whose quantity cell parses to a negative number. -/
def negQtyRow : Row :=
  { description := "Neg", itemNumber := "", costMethodRaw := "", productionRateRaw := "",
    budget := 0, scheduledValue := some 10, quantity := some (-2) }

/-- A row whose quantity does not divide its scheduled value exactly. -/
def thirdQtyRow : Row :=
  { description := "Third", itemNumber := "", costMethodRaw := "", productionRateRaw := "",
    budget := 0, scheduledValue := some 1, quantity := some 3 }

lemma divD_ten_negTwo : divD 10 (-2) = -5 := by
  have : (10 : ℚ) / (-2) = -5 := by norm_num
  rw [divD, this, roundDec_eq_of_neg 16 (-5) (5 * 10 ^ 16) (by norm_num)
    (by norm_num) (by norm_num)]
  norm_num

lemma roundDec_four_negFive : roundDec 4 (-5 : ℚ) = -5 := by
  rw [roundDec_eq_of_neg 4 (-5) 50000 (by norm_num) (by norm_num) (by norm_num)]
  norm_num

lemma divD_one_three : divD 1 3 = 3333333333333333 / 10000000000000000 := by
  rw [divD, roundDec_eq_of_nonneg 16 (1 / 3) 3333333333333333 (by norm_num)
    (by norm_num) (by norm_num)]
  norm_num

lemma roundDec_four_third :
    roundDec 4 ((3333333333333333 : ℚ) / 10000000000000000) = 3333 / 10000 := by
  rw [roundDec_eq_of_nonneg 4 _ 3333 (by norm_num) (by norm_num) (by norm_num)]
  norm_num

/-- Claim C9 counterexample: for a produced item with quantity −2 and
scheduled value 10 the unit price is −5, not 0 as the claim requires for a
non-positive quantity; and for quantity 3 with scheduled value 1 the unit
price is the rounded 0.3333, not the exact quotient 1/3. -/
theorem claim9_counterexample :
    (buildBidItems [negQtyRow]).map (·.unitPrice) = [-5] ∧ ((-5 : ℚ) ≠ 0) ∧
    (buildBidItems [thirdQtyRow]).map (·.unitPrice) = [3333 / 10000] ∧
    ((3333 / 10000 : ℚ) ≠ 1 / 3) := by
  refine ⟨?_, by norm_num, ?_, by norm_num⟩
  · norm_num +decide [buildBidItems, negQtyRow, processRow, popCompleted, classifyRow,
      budgetTolerance, generateItemNumber, calculateUnitPrice, divD_ten_negTwo,
      roundDec_four_negFive]
  · norm_num +decide [buildBidItems, thirdQtyRow, processRow, popCompleted, classifyRow,
      budgetTolerance, generateItemNumber, calculateUnitPrice, divD_one_three,
      roundDec_four_third]

/-- Claim C9 (amended): every produced item's unit price is 0 when the
scheduled value fails to parse, or the quantity fails to parse or is
zero; for any parseable non-zero quantity (negative included) it is the
scheduled value divided by the quantity — decimal division at 16 digits,
then rounded to 4 decimal places. -/
theorem claim9_unit_price : ∀ rows : List Row, ∀ it ∈ buildBidItems rows,
    (it.scheduledValue = none ∨ it.qty = none ∨ it.qty = some 0 → it.unitPrice = 0) ∧
    (∀ sv qv, it.scheduledValue = some sv → it.qty = some qv → qv ≠ 0 →
      it.unitPrice = roundDec 4 (divD sv qv)) := by
  intro rows it hit
  have h := build_unitPrice rows ⟨[], [], 0⟩ (by simp) it hit
  constructor
  · rintro (h1 | h1 | h1) <;> rw [h, h1]
    · rfl
    · cases hs : it.scheduledValue <;> rfl
    · cases hs : it.scheduledValue with
      | none => rfl
      | some sv => simp [calculateUnitPrice]
  · intro sv qv h1 h2 h3
    rw [h, h1, h2]
    simp [calculateUnitPrice, h3]

theorem claim9_witness :
    ({ sortOrder := 1, parentId := none, itemNumber := "AUTO-1",
       description := "Neg", costMethod := "Cost", budget := 0,
       scheduledValue := some 10, qty := some (-2), unitPrice := -5 } : BidItem).unitPrice =
      roundDec 4 (divD 10 (-2)) :=
  (claim9_unit_price [negQtyRow]
    { sortOrder := 1, parentId := none, itemNumber := "AUTO-1",
      description := "Neg", costMethod := "Cost", budget := 0,
      scheduledValue := some 10, qty := some (-2), unitPrice := -5 }
    (by norm_num +decide [buildBidItems, negQtyRow, processRow, popCompleted, classifyRow,
      budgetTolerance, generateItemNumber, calculateUnitPrice, divD_ten_negTwo,
      roundDec_four_negFive])).2 10 (-2) rfl rfl (by norm_num)

/-! ## Validation and distribution data model

`job_items` rows as the validators/distributor read them (all numeric
columns are `NUMERIC`, so they are plain rationals here), and
`pay_applications` rows. -/

/-- One `job_items` row (`id`, `parent_id`, `item_number`, `budget`,
`qty` = total quantity, `unit_price`). -/
structure VItem where
  id : ℕ
  parentId : Option ℕ
  itemNumber : String
  budget : ℚ
  qty : ℚ
  unitPrice : ℚ
  deriving DecidableEq

/-- One `pay_applications` row: `(job_item_id, pay_app_month, qty,
stored_materials)`.  Months are modelled as integers (ordered
first-of-month dates). -/
structure PayFact where
  itemId : ℕ
  month : ℤ
  qty : ℚ
  storedMaterials : ℚ
  deriving DecidableEq

/-- `GetDirectChildren`: the rows whose `parent_id` is the given id. -/
def directChildren (items : List VItem) (pid : ℕ) : List VItem :=
  items.filter (fun c => c.parentId == some pid)

/-- `GetParentItems`: the rows for which a child row exists. -/
def parentItems (items : List VItem) : List VItem :=
  items.filter (fun p => !(directChildren items p.id).isEmpty)

/-- Lookup of the unique `pay_applications` row for an item and month
(`UNIQUE(job_item_id, pay_app_month)`). -/
def getFact (facts : List PayFact) (i : ℕ) (m : ℤ) : Option PayFact :=
  facts.find? (fun f => f.itemId == i && f.month == m)

/-- `cumulative_qty` of the `pay_application_cumulative` view: the sum of
the item's monthly quantities over all fact months `≤ m`. -/
def cumulativeQty (facts : List PayFact) (i : ℕ) (m : ℤ) : ℚ :=
  ((facts.filter (fun f => f.itemId == i && decide (f.month ≤ m))).map (·.qty)).sum

/-- `previous_cumulative_qty` of the view: the same sum over months
strictly before `m`. -/
def prevCumulativeQty (facts : List PayFact) (i : ℕ) (m : ℤ) : ℚ :=
  ((facts.filter (fun f => f.itemId == i && decide (f.month < m))).map (·.qty)).sum

/-- `UpsertPayApplication`: replace the row keyed `(i, m)` if present,
otherwise insert it. -/
def upsertFact : List PayFact → ℕ → ℤ → ℚ → ℚ → List PayFact
  | [], i, m, q, sm => [⟨i, m, q, sm⟩]
  | f :: fs, i, m, q, sm =>
    if f.itemId == i && f.month == m then ⟨i, m, q, sm⟩ :: fs
    else f :: upsertFact fs i m q sm

/-- `ValidationErrorType`. -/
inductive VErrorType where
  | budgetMismatch
  | monthlyAmountMismatch
  deriving DecidableEq

/-- `ValidationError` (the `StringFixed(2)` renderings of the recorded
amounts are modelled by `roundDec 2`; `month` is `none` for budget
validation, mirroring the zero `time.Time`). -/
structure VError where
  etype : VErrorType
  parentId : ℕ
  month : Option ℤ
  expected : ℚ
  actual : ℚ
  difference : ℚ
  deriving DecidableEq

/-- `ValidationResult` (`IsValid` plus collected errors; warnings cannot
occur over `NUMERIC` data and are omitted). -/
structure VResult where
  isValid : Bool
  errors : List VError
  deriving DecidableEq

/-- One loop step of a validator: on a mismatch, set `IsValid` to false
and append the error; otherwise leave the result unchanged. -/
def accErr {α : Type} (check : α → Option VError) (res : VResult) (x : α) : VResult :=
  match check x with
  | none => res
  | some e => ⟨false, res.errors ++ [e]⟩

/-- The per-parent body of `ValidateBudgetHierarchy`: skip childless
parents, sum the direct children's budgets, and record a
`BUDGET_MISMATCH` when `|parent − childSum|` exceeds the tolerance. -/
def budgetCheck (items : List VItem) (p : VItem) : Option VError :=
  let children := directChildren items p.id
  if children.isEmpty then none
  else
    let childSum := (children.map (·.budget)).sum
    let diff := |p.budget - childSum|
    if tolerance < diff then
      some ⟨.budgetMismatch, p.id, none, roundDec 2 p.budget, roundDec 2 childSum,
        roundDec 2 diff⟩
    else none

/-- `ValidateBudgetHierarchy`: fold the per-parent check over all parent
items, starting from a valid, empty result. -/
def ValidateBudgetHierarchy (items : List VItem) : VResult :=
  (parentItems items).foldl (accErr (budgetCheck items)) ⟨true, []⟩

/-- The children's summed dollar amount for a month: each direct child
contributes its month quantity (0 when it has no fact, via the
`COALESCE` in `GetChildrenWithPayApps`) times its unit price. -/
def childAmtSum (items : List VItem) (facts : List PayFact) (m : ℤ) (p : VItem) : ℚ :=
  ((directChildren items p.id).map (fun c =>
    (((getFact facts c.id m).map (·.qty)).getD 0) * c.unitPrice)).sum

/-- The per-(month, parent) body of `ValidateMonthlyAmounts`: skip the
pair when the parent has no fact for the month; otherwise compare the
parent's `qty × unit_price` with the children's summed amounts. -/
def monthlyCheck (items : List VItem) (facts : List PayFact) (m : ℤ) (p : VItem) :
    Option VError :=
  match getFact facts p.id m with
  | none => none
  | some pf =>
    let parentAmount := pf.qty * p.unitPrice
    let childSum := childAmtSum items facts m p
    let diff := |parentAmount - childSum|
    if tolerance < diff then
      some ⟨.monthlyAmountMismatch, p.id, some m, roundDec 2 parentAmount,
        roundDec 2 childSum, roundDec 2 diff⟩
    else none

/-- Ordered insertion used to model the `ORDER BY pay_app_month` of
`GetPayAppMonthsForJob`. -/
def insertMonth (m : ℤ) : List ℤ → List ℤ
  | [] => [m]
  | x :: xs => if m ≤ x then m :: x :: xs else x :: insertMonth m xs

/-- `GetPayAppMonthsForJob`: the distinct fact months, ascending. -/
def payAppMonths (facts : List PayFact) : List ℤ :=
  ((facts.map (·.month)).dedup).foldr insertMonth []

/-- `ValidateMonthlyAmounts`: fold the per-pair check over every fact
month and every parent item. -/
def ValidateMonthlyAmounts (items : List VItem) (facts : List PayFact) : VResult :=
  (payAppMonths facts).foldl
    (fun res m => (parentItems items).foldl (accErr (monthlyCheck items facts m)) res)
    ⟨true, []⟩

/-! ## Quantity distribution -/

/-- `DistributionDetail` (the rendered percentage is modelled as
`roundDec 2 (pct * 100)`). -/
structure DistDetail where
  parentId : ℕ
  month : ℤ
  childrenCount : ℕ
  pctComplete : ℚ
  deriving DecidableEq

/-- `DistributionResult`. -/
structure DistResult where
  itemsUpdated : ℕ
  monthsProcessed : List ℤ
  details : List DistDetail
  deriving DecidableEq

/-- The child's `previous_cumulative_qty` as `GetChildrenWithPayApps`
returns it: the view is LEFT-JOINed on the **target month**, so when the
child has no fact row for that month the join misses and the `COALESCE`
yields 0 — even if the child has facts in earlier months. -/
def childPrevCumulative (facts : List PayFact) (i : ℕ) (m : ℤ) : ℚ :=
  if (getFact facts i m).isSome then prevCumulativeQty facts i m else 0

/-- The quantity written for one child: `total_qty × pct` minus the
child's (join-keyed) previous cumulative, clamped at zero. -/
def childMonthValue (facts : List PayFact) (m : ℤ) (pct : ℚ) (c : VItem) : ℚ :=
  let newCum := c.qty * pct
  let mq := newCum - childPrevCumulative facts c.id m
  if mq < 0 then 0 else mq

/-- The per-parent body of `DistributeParentQty`: skip when the parent has
no fact for the month, its quantity is zero, it has no children, some
child already has a non-zero quantity for the month, or the parent's
total quantity is zero; otherwise compute the percent complete and upsert
every child's fact for the month (stored materials 0).  Returns the new
facts, the number of children written, and the percent complete used. -/
def distributeParent (items : List VItem) (facts : List PayFact) (m : ℤ) (p : VItem) :
    List PayFact × ℕ × ℚ :=
  match getFact facts p.id m with
  | none => (facts, 0, 0)
  | some pf =>
    if pf.qty = 0 then (facts, 0, 0)
    else
      let children := directChildren items p.id
      if children.isEmpty then (facts, 0, 0)
      else if children.any
          (fun c => !(((getFact facts c.id m).map (·.qty)).getD 0 == 0)) then
        (facts, 0, 0)
      else if p.qty = 0 then (facts, 0, 0)
      else
        let pct := divD (cumulativeQty facts p.id m) p.qty
        let folded := children.foldl
          (fun acc c => (upsertFact acc.1 c.id m (childMonthValue facts m pct c) 0, acc.2 + 1))
          (facts, 0)
        (folded.1, folded.2, pct)

/-- `DistributeParentQty`: fold the per-parent body over all parent items
for the target month, accumulating the updated-children count and the
per-parent details for parents that actually wrote something. -/
def DistributeParentQty (items : List VItem) (facts : List PayFact) (m : ℤ) :
    DistResult × List PayFact :=
  (parentItems items).foldl
    (fun acc p =>
      let step := distributeParent items acc.2 m p
      if 0 < step.2.1 then
        ({ itemsUpdated := acc.1.itemsUpdated + step.2.1
           monthsProcessed := acc.1.monthsProcessed
           details := acc.1.details ++ [⟨p.id, m, step.2.1, roundDec 2 (step.2.2 * 100)⟩] },
         step.1)
      else (acc.1, step.1))
    (⟨0, [m], []⟩, facts)

/-! ## Validator characterization -/

lemma foldl_accErr_errors {α : Type} (c : α → Option VError) :
    ∀ (xs : List α) (res : VResult),
      (xs.foldl (accErr c) res).errors = res.errors ++ xs.filterMap c := by
  intro xs
  induction xs with
  | nil => simp
  | cons x xs ih =>
    intro res
    rw [List.foldl_cons, List.filterMap_cons, ih]
    cases hc : c x with
    | none => simp [accErr, hc]
    | some e => simp [accErr, hc]

lemma foldl_accErr_isValid {α : Type} (c : α → Option VError) :
    ∀ (xs : List α) (res : VResult),
      (xs.foldl (accErr c) res).isValid = (res.isValid && (xs.filterMap c).isEmpty) := by
  intro xs
  induction xs with
  | nil => simp
  | cons x xs ih =>
    intro res
    rw [List.foldl_cons, List.filterMap_cons, ih]
    cases hc : c x with
    | none => simp [accErr, hc]
    | some e => simp [accErr, hc]

lemma validateBudget_errors (items : List VItem) :
    (ValidateBudgetHierarchy items).errors =
      (parentItems items).filterMap (budgetCheck items) := by
  rw [ValidateBudgetHierarchy, foldl_accErr_errors]
  rfl

lemma validateBudget_isValid (items : List VItem) :
    (ValidateBudgetHierarchy items).isValid = true ↔
      (ValidateBudgetHierarchy items).errors = [] := by
  rw [ValidateBudgetHierarchy, foldl_accErr_isValid, foldl_accErr_errors]
  simp [List.isEmpty_iff]

lemma budgetCheck_inv {items : List VItem} {p : VItem} {e : VError}
    (h : budgetCheck items p = some e) :
    e.parentId = p.id ∧ ¬(directChildren items p.id).isEmpty = true ∧
      tolerance < |p.budget - ((directChildren items p.id).map (·.budget)).sum| := by
  unfold budgetCheck at h
  by_cases h1 : (directChildren items p.id).isEmpty
  · simp [h1] at h
  · by_cases h2 : tolerance < |p.budget - ((directChildren items p.id).map (·.budget)).sum|
    · simp only [h1, if_false, Bool.false_eq_true, h2, if_true, Option.some.injEq] at h
      exact ⟨by rw [← h], h1, h2⟩
    · simp [h1, h2] at h

lemma budgetCheck_eq_some {items : List VItem} {p : VItem}
    (h1 : ¬(directChildren items p.id).isEmpty = true)
    (h2 : tolerance < |p.budget - ((directChildren items p.id).map (·.budget)).sum|) :
    budgetCheck items p =
      some ⟨.budgetMismatch, p.id, none, roundDec 2 p.budget,
        roundDec 2 ((directChildren items p.id).map (·.budget)).sum,
        roundDec 2 |p.budget - ((directChildren items p.id).map (·.budget)).sum|⟩ := by
  unfold budgetCheck
  simp [h1, h2]

/-- The boundary forest whose one parent differs from its child sum by
exactly 0.01. -/
def boundaryOkForest : List VItem :=
  [⟨1, none, "P", 10, 0, 0⟩, ⟨2, some 1, "C", 999 / 100, 0, 0⟩]

/-- The boundary forest whose one parent differs from its child sum by
0.011. -/
def boundaryBadForest : List VItem :=
  [⟨1, none, "P", 10, 0, 0⟩, ⟨2, some 1, "C", 9989 / 1000, 0, 0⟩]

/-- Claim C4: the budget validator records a `BUDGET_MISMATCH` for an item
exactly when it has at least one direct child and the absolute difference
between its own budget and its direct children's budget sum exceeds 0.01
(it never stops early — every such node is recorded); `IsValid` holds iff
no mismatch was recorded; a difference of exactly 0.01 is not flagged
while 0.011 is. -/
theorem claim4_budget_validator :
    (∀ items : List VItem, (items.map (·.id)).Nodup →
      ∀ p ∈ items,
        ((∃ e ∈ (ValidateBudgetHierarchy items).errors, e.parentId = p.id) ↔
          (directChildren items p.id ≠ [] ∧
            tolerance < |p.budget - ((directChildren items p.id).map (·.budget)).sum|))) ∧
    (∀ items : List VItem,
      ((ValidateBudgetHierarchy items).isValid = true ↔
        (ValidateBudgetHierarchy items).errors = [])) ∧
    (ValidateBudgetHierarchy boundaryOkForest).errors = [] ∧
    (ValidateBudgetHierarchy boundaryOkForest).isValid = true ∧
    (ValidateBudgetHierarchy boundaryBadForest).errors ≠ [] ∧
    (ValidateBudgetHierarchy boundaryBadForest).isValid = false := by
  refine ⟨?_, validateBudget_isValid, ?_, ?_, ?_, ?_⟩
  · intro items hN p hp
    constructor
    · rintro ⟨e, he, hid⟩
      rw [validateBudget_errors] at he
      obtain ⟨q, hq, hqe⟩ := List.mem_filterMap.mp he
      obtain ⟨hqid, h1, h2⟩ := budgetCheck_inv hqe
      have hqItems : q ∈ items := List.mem_of_mem_filter hq
      have : q = p := List.inj_on_of_nodup_map hN hqItems hp (by rw [← hqid, hid])
      rw [← this]
      exact ⟨fun hnil => h1 (by rw [hnil]; rfl), h2⟩
    · rintro ⟨h1, h2⟩
      have h1' : ¬(directChildren items p.id).isEmpty = true := by
        simpa [List.isEmpty_iff] using h1
      refine ⟨⟨.budgetMismatch, p.id, none, roundDec 2 p.budget,
        roundDec 2 ((directChildren items p.id).map (·.budget)).sum,
        roundDec 2 |p.budget - ((directChildren items p.id).map (·.budget)).sum|⟩, ?_, rfl⟩
      rw [validateBudget_errors]
      exact List.mem_filterMap.mpr
        ⟨p, List.mem_filter.mpr ⟨hp, by simpa using h1'⟩, budgetCheck_eq_some h1' h2⟩
  · norm_num +decide [ValidateBudgetHierarchy, boundaryOkForest, parentItems,
      directChildren, budgetCheck, accErr, tolerance, abs_of_nonneg]
  · norm_num +decide [ValidateBudgetHierarchy, boundaryOkForest, parentItems,
      directChildren, budgetCheck, accErr, tolerance, abs_of_nonneg]
  · norm_num +decide [ValidateBudgetHierarchy, boundaryBadForest, parentItems,
      directChildren, budgetCheck, accErr, tolerance, abs_of_nonneg]
  · norm_num +decide [ValidateBudgetHierarchy, boundaryBadForest, parentItems,
      directChildren, budgetCheck, accErr, tolerance, abs_of_nonneg]

theorem claim4_witness :
    (∃ e ∈ (ValidateBudgetHierarchy boundaryBadForest).errors,
        e.parentId = (⟨1, none, "P", 10, 0, 0⟩ : VItem).id) ↔
      (directChildren boundaryBadForest 1 ≠ [] ∧
        tolerance <
          |(10 : ℚ) - ((directChildren boundaryBadForest 1).map (·.budget)).sum|) :=
  claim4_budget_validator.1 boundaryBadForest (by decide)
    ⟨1, none, "P", 10, 0, 0⟩ (by norm_num [boundaryBadForest])

/-! ## Monthly validator characterization -/

lemma mem_insertMonth {x m : ℤ} : ∀ l : List ℤ, x ∈ insertMonth m l ↔ x = m ∨ x ∈ l := by
  intro l
  induction l with
  | nil => simp [insertMonth]
  | cons y ys ih =>
    rw [insertMonth]
    by_cases hc : m ≤ y
    · simp [hc]
    · simp only [hc, if_false]
      rw [List.mem_cons, List.mem_cons, ih]
      tauto

lemma mem_foldr_insertMonth : ∀ (l : List ℤ) (x : ℤ), x ∈ l.foldr insertMonth [] ↔ x ∈ l := by
  intro l x
  induction l with
  | nil => simp
  | cons y ys ih => rw [List.foldr_cons, mem_insertMonth, ih, List.mem_cons]

lemma mem_payAppMonths {facts : List PayFact} {m : ℤ} :
    m ∈ payAppMonths facts ↔ m ∈ facts.map (·.month) := by
  rw [payAppMonths, mem_foldr_insertMonth, List.mem_dedup]

lemma monthly_fold_spec (items : List VItem) (facts : List PayFact) :
    ∀ (ms : List ℤ) (res : VResult),
      (ms.foldl (fun res m =>
          (parentItems items).foldl (accErr (monthlyCheck items facts m)) res) res).errors =
        res.errors ++
          ms.flatMap (fun m => (parentItems items).filterMap (monthlyCheck items facts m)) ∧
      (ms.foldl (fun res m =>
          (parentItems items).foldl (accErr (monthlyCheck items facts m)) res) res).isValid =
        (res.isValid &&
          (ms.flatMap
            (fun m => (parentItems items).filterMap (monthlyCheck items facts m))).isEmpty) := by
  intro ms
  induction ms with
  | nil => simp
  | cons m ms ih =>
    intro res
    rw [List.foldl_cons]
    obtain ⟨ih1, ih2⟩ := ih ((parentItems items).foldl (accErr (monthlyCheck items facts m)) res)
    rw [ih1, ih2, foldl_accErr_errors, foldl_accErr_isValid]
    constructor
    · simp [List.flatMap_cons]
    · simp only [List.flatMap_cons, Bool.and_assoc]
      cases hx : List.filterMap (monthlyCheck items facts m) (parentItems items) with
      | nil => simp
      | cons a l => simp

lemma validateMonthly_errors (items : List VItem) (facts : List PayFact) :
    (ValidateMonthlyAmounts items facts).errors =
      (payAppMonths facts).flatMap
        (fun m => (parentItems items).filterMap (monthlyCheck items facts m)) := by
  rw [ValidateMonthlyAmounts]
  simpa using (monthly_fold_spec items facts (payAppMonths facts) ⟨true, []⟩).1

lemma validateMonthly_isValid (items : List VItem) (facts : List PayFact) :
    (ValidateMonthlyAmounts items facts).isValid = true ↔
      (ValidateMonthlyAmounts items facts).errors = [] := by
  rw [ValidateMonthlyAmounts]
  obtain ⟨h1, h2⟩ := monthly_fold_spec items facts (payAppMonths facts) ⟨true, []⟩
  rw [h1, h2]
  simp [List.isEmpty_iff]

lemma monthlyCheck_inv {items : List VItem} {facts : List PayFact} {m : ℤ} {p : VItem}
    {e : VError} (h : monthlyCheck items facts m p = some e) :
    e.parentId = p.id ∧ e.month = some m ∧
      ∃ pf, getFact facts p.id m = some pf ∧
        tolerance < |pf.qty * p.unitPrice - childAmtSum items facts m p| := by
  unfold monthlyCheck at h
  cases hf : getFact facts p.id m with
  | none => rw [hf] at h; exact absurd h (by simp)
  | some pf =>
    rw [hf] at h
    by_cases h2 : tolerance < |pf.qty * p.unitPrice - childAmtSum items facts m p|
    · simp only [h2, if_true, Option.some.injEq] at h
      exact ⟨by rw [← h], by rw [← h], pf, rfl, h2⟩
    · simp [h2] at h

lemma monthlyCheck_eq_some {items : List VItem} {facts : List PayFact} {m : ℤ} {p : VItem}
    {pf : PayFact} (hf : getFact facts p.id m = some pf)
    (h2 : tolerance < |pf.qty * p.unitPrice - childAmtSum items facts m p|) :
    monthlyCheck items facts m p =
      some ⟨.monthlyAmountMismatch, p.id, some m, roundDec 2 (pf.qty * p.unitPrice),
        roundDec 2 (childAmtSum items facts m p),
        roundDec 2 |pf.qty * p.unitPrice - childAmtSum items facts m p|⟩ := by
  unfold monthlyCheck
  rw [hf]
  simp [h2]

/-- Claim C7: for every fact month and every item, the monthly validator
silently skips the (parent, month) pair when the parent has no fact for
that month, and otherwise records a `MONTHLY_AMOUNT_MISMATCH` for it
exactly when the absolute difference between the parent's amount
(month quantity × unit price) and the direct children's summed amounts
(missing child facts counting as zero) exceeds the same 0.01 tolerance;
the months iterated are exactly those with at least one recorded fact,
and the result is valid iff nothing was recorded. -/
theorem claim7_monthly_validator :
    (∀ (facts : List PayFact) (m : ℤ),
      m ∈ payAppMonths facts ↔ m ∈ facts.map (·.month)) ∧
    (∀ (items : List VItem) (facts : List PayFact), (items.map (·.id)).Nodup →
      ∀ p ∈ items, ∀ m : ℤ,
        ((∃ e ∈ (ValidateMonthlyAmounts items facts).errors,
            e.parentId = p.id ∧ e.month = some m) ↔
          (m ∈ payAppMonths facts ∧ directChildren items p.id ≠ [] ∧
            ∃ pf, getFact facts p.id m = some pf ∧
              tolerance < |pf.qty * p.unitPrice - childAmtSum items facts m p|))) ∧
    (∀ (items : List VItem) (facts : List PayFact),
      (ValidateMonthlyAmounts items facts).isValid = true ↔
        (ValidateMonthlyAmounts items facts).errors = []) := by
  refine ⟨fun facts m => mem_payAppMonths, ?_, validateMonthly_isValid⟩
  intro items facts hN p hp m
  constructor
  · rintro ⟨e, he, hid, hm⟩
    rw [validateMonthly_errors] at he
    obtain ⟨m', hm', hpe⟩ := List.mem_flatMap.mp he
    obtain ⟨q, hq, hqe⟩ := List.mem_filterMap.mp hpe
    obtain ⟨hqid, hqm, pf, hpf, h2⟩ := monthlyCheck_inv hqe
    have hmeq : m' = m := by
      rw [hqm] at hm
      exact (Option.some.injEq _ _ ▸ hm)
    have hqItems : q ∈ items := List.mem_of_mem_filter hq
    have hqp : q = p := List.inj_on_of_nodup_map hN hqItems hp (by rw [← hqid, hid])
    rw [hmeq] at hm' h2 hpf
    rw [hqp] at h2 hpf
    refine ⟨hm', ?_, pf, hpf, h2⟩
    have := List.mem_filter.mp hq
    rw [hqp] at this
    intro hnil
    simp [hnil] at this
  · rintro ⟨hm, h1, pf, hpf, h2⟩
    have h1' : ¬(directChildren items p.id).isEmpty = true := by
      simpa [List.isEmpty_iff] using h1
    refine ⟨⟨.monthlyAmountMismatch, p.id, some m, roundDec 2 (pf.qty * p.unitPrice),
      roundDec 2 (childAmtSum items facts m p),
      roundDec 2 |pf.qty * p.unitPrice - childAmtSum items facts m p|⟩, ?_, rfl, rfl⟩
    rw [validateMonthly_errors]
    refine List.mem_flatMap.mpr ⟨m, hm, ?_⟩
    exact List.mem_filterMap.mpr
      ⟨p, List.mem_filter.mpr ⟨hp, by simpa using h1'⟩, monthlyCheck_eq_some hpf h2⟩

/-- Items used to instantiate the monthly-validator claim. -/
def c7Items : List VItem :=
  [⟨1, none, "P", 0, 0, 2⟩, ⟨2, some 1, "C", 0, 0, 1⟩]

/-- Facts used to instantiate the monthly-validator claim: the parent
billed 5 units in month 3, the child nothing. -/
def c7Facts : List PayFact := [⟨1, 3, 5, 0⟩]

theorem claim7_witness :
    ∃ e ∈ (ValidateMonthlyAmounts c7Items c7Facts).errors,
      e.parentId = (⟨1, none, "P", 0, 0, 2⟩ : VItem).id ∧ e.month = some 3 :=
  (claim7_monthly_validator.2.1 c7Items c7Facts (by decide)
    ⟨1, none, "P", 0, 0, 2⟩ (by norm_num [c7Items]) 3).mpr
    ⟨by decide, by decide, ⟨1, 3, 5, 0⟩, by decide, by
      have hg : getFact c7Facts 2 3 = none := by decide
      norm_num +decide [childAmtSum, directChildren, c7Items, hg, tolerance,
        abs_of_nonneg]⟩

/-! ## Distribution characterization -/

lemma getFact_cons (f : PayFact) (fs : List PayFact) (i : ℕ) (m : ℤ) :
    getFact (f :: fs) i m =
      if f.itemId = i ∧ f.month = m then some f else getFact fs i m := by
  rw [getFact, getFact]
  by_cases h : f.itemId = i ∧ f.month = m
  · rw [if_pos h]
    exact List.find?_cons_of_pos _ (by simp [h.1, h.2])
  · rw [if_neg h]
    exact List.find?_cons_of_neg _ (by simpa [Bool.and_eq_true, beq_iff_eq] using h)

lemma getFact_upsert (i : ℕ) (m : ℤ) (q sm : ℚ) (i' : ℕ) (m' : ℤ) :
    ∀ fs : List PayFact,
      getFact (upsertFact fs i m q sm) i' m' =
        if i' = i ∧ m' = m then some ⟨i, m, q, sm⟩ else getFact fs i' m' := by
  intro fs
  induction fs with
  | nil =>
    rw [upsertFact, getFact_cons]
    by_cases h : i' = i ∧ m' = m
    · rw [if_pos ⟨h.1.symm, h.2.symm⟩, if_pos h]
    · rw [if_neg (fun hh => h ⟨hh.1.symm, hh.2.symm⟩), if_neg h]
  | cons f fs ih =>
    rw [upsertFact]
    by_cases hc : f.itemId = i ∧ f.month = m
    · rw [if_pos (by simp [hc.1, hc.2] : (f.itemId == i && f.month == m) = true)]
      rw [getFact_cons, getFact_cons]
      by_cases h : i' = i ∧ m' = m
      · obtain ⟨h1, h2⟩ := h
        subst h1
        subst h2
        simp
      · rw [if_neg (fun hh => h ⟨hh.1.symm, hh.2.symm⟩), if_neg h,
          if_neg (fun hh => h ⟨hh.1.symm.trans hc.1, hh.2.symm.trans hc.2⟩)]
    · rw [if_neg (by simpa [Bool.and_eq_true, beq_iff_eq] using hc)]
      rw [getFact_cons, ih, getFact_cons]
      by_cases h : i' = i ∧ m' = m
      · rw [if_pos h, if_pos h]
        obtain ⟨h1, h2⟩ := h
        subst h1
        subst h2
        rw [if_neg hc]
      · rw [if_neg h, if_neg h]

lemma distr_fold_other (m : ℤ) (val : VItem → ℚ) :
    ∀ (cs : List VItem) (fs : List PayFact) (n : ℕ) (i : ℕ) (m' : ℤ),
      (∀ c ∈ cs, ¬(i = c.id ∧ m' = m)) →
      getFact ((cs.foldl
          (fun acc c => (upsertFact acc.1 c.id m (val c) 0, acc.2 + 1)) (fs, n)).1) i m' =
        getFact fs i m' := by
  intro cs
  induction cs with
  | nil => intro fs n i m' _; rfl
  | cons c cs ih =>
    intro fs n i m' h
    rw [List.foldl_cons]
    rw [ih _ _ _ _ (fun c' hc' => h c' (List.mem_cons_of_mem _ hc'))]
    rw [getFact_upsert, if_neg (h c (List.mem_cons_self c cs))]

lemma distr_fold_self (m : ℤ) (val : VItem → ℚ) :
    ∀ (cs : List VItem) (fs : List PayFact) (n : ℕ),
      (cs.map (·.id)).Nodup →
      ∀ c ∈ cs,
        getFact ((cs.foldl
            (fun acc c => (upsertFact acc.1 c.id m (val c) 0, acc.2 + 1)) (fs, n)).1) c.id m =
          some ⟨c.id, m, val c, 0⟩ := by
  intro cs
  induction cs with
  | nil => intro fs n _ c hc; simp at hc
  | cons c0 cs ih =>
    intro fs n hN c hc
    rw [List.foldl_cons]
    rcases List.mem_cons.mp hc with rfl | hmem
    · have hnot : ∀ c' ∈ cs, ¬(c.id = c'.id ∧ m = m) := by
        intro c' hc' hh
        refine (List.nodup_cons.mp hN).1 ?_
        have : c'.id ∈ cs.map (·.id) := List.mem_map_of_mem (·.id) hc'
        rw [← hh.1] at this
        exact this
      rw [distr_fold_other m val cs _ _ _ _ hnot]
      rw [getFact_upsert, if_pos ⟨rfl, rfl⟩]
    · exact ih _ _ (List.nodup_cons.mp hN).2 c hmem

lemma distr_fold_count (m : ℤ) (val : VItem → ℚ) :
    ∀ (cs : List VItem) (fs : List PayFact) (n : ℕ),
      ((cs.foldl (fun acc c => (upsertFact acc.1 c.id m (val c) 0, acc.2 + 1)) (fs, n)).2) =
        n + cs.length := by
  intro cs
  induction cs with
  | nil => intro fs n; rfl
  | cons c cs ih =>
    intro fs n
    rw [List.foldl_cons, ih]
    simp
    omega

lemma childMonthValue_max (facts : List PayFact) (m : ℤ) (pct : ℚ) (c : VItem) :
    childMonthValue facts m pct c =
      max 0 (c.qty * pct - childPrevCumulative facts c.id m) := by
  unfold childMonthValue
  rcases lt_or_le (c.qty * pct - childPrevCumulative facts c.id m) 0 with h | h
  · rw [if_pos h]
    exact (max_eq_left h.le).symm
  · rw [if_neg (not_lt.mpr h)]
    exact (max_eq_right h).symm

lemma divD_forty_hundred : divD 40 100 = 2 / 5 := by
  have h : (40 : ℚ) / 100 = 2 / 5 := by norm_num
  rw [divD, h, roundDec_eq_of_nonneg 16 (2 / 5) (4 * 10 ^ 15) (by norm_num)
    (by norm_num) (by norm_num)]
  norm_num

lemma distributeParent_fires {items : List VItem} {facts : List PayFact} {m : ℤ}
    {p : VItem} {pf : PayFact}
    (hf : getFact facts p.id m = some pf) (hq : ¬pf.qty = 0)
    (hne : ¬(directChildren items p.id).isEmpty = true)
    (hz : ∀ c ∈ directChildren items p.id, (((getFact facts c.id m).map (·.qty)).getD 0) = 0)
    (hpq : ¬p.qty = 0) :
    distributeParent items facts m p =
      (let folded := (directChildren items p.id).foldl
        (fun acc c =>
          (upsertFact acc.1 c.id m
            (childMonthValue facts m (divD (cumulativeQty facts p.id m) p.qty) c) 0,
           acc.2 + 1)) (facts, 0)
       (folded.1, folded.2, divD (cumulativeQty facts p.id m) p.qty)) := by
  have hany : ((directChildren items p.id).any
      (fun c => !(((getFact facts c.id m).map (·.qty)).getD 0 == 0))) = false := by
    rw [List.any_eq_false]
    intro c hc
    rw [hz c hc]
    simp
  simp only [distributeParent, hf, if_neg hq, hne, Bool.false_eq_true, if_false,
    hany, if_neg hpq]

/-- Claim C5 items: parent (id 1, total qty 100) with one child (id 2,
total qty 50). -/
def c5Items : List VItem := [⟨1, none, "P", 0, 100, 0⟩, ⟨2, some 1, "C", 0, 50, 0⟩]

/-- Claim C5 facts, variant A: parent cumulative-to-month-2 is 30+10=40;
the child's silent target month is recorded as an explicit zero-qty fact,
so its previous cumulative (15) is visible through the month-keyed
join. -/
def c5FactsA : List PayFact :=
  [⟨1, 1, 30, 0⟩, ⟨1, 2, 10, 0⟩, ⟨2, 1, 15, 0⟩, ⟨2, 2, 0, 0⟩]

/-- Claim C5 facts, variant B: same, but the child simply has no fact row
for the target month, so the month-keyed join loses its previous
cumulative. -/
def c5FactsB : List PayFact := [⟨1, 1, 30, 0⟩, ⟨1, 2, 10, 0⟩, ⟨2, 1, 15, 0⟩]

/-- Claim C5 counterexample: with the child's 15 units of prior progress
but no fact row for the target month, the distributor writes month
quantity 20 for the child — not the 5 that the claimed formula
`max 0 (childTotal × pct − previousCumulative)` (previous cumulative
taken strictly before the month, here 15) prescribes. -/
theorem claim5_counterexample :
    getFact (DistributeParentQty c5Items c5FactsB 2).2 2 2 = some ⟨2, 2, 20, 0⟩ ∧
    prevCumulativeQty c5FactsB 2 2 = 15 ∧
    cumulativeQty c5FactsB 1 2 = 40 ∧
    ((20 : ℚ) ≠ max 0 ((50 : ℚ) * divD 40 100 - 15)) := by
  refine ⟨?_, ?_, ?_, ?_⟩
  · norm_num +decide [DistributeParentQty, distributeParent, parentItems, directChildren,
      c5Items, c5FactsB, getFact, cumulativeQty, prevCumulativeQty, childPrevCumulative,
      childMonthValue, upsertFact, divD_forty_hundred]
  · norm_num +decide [prevCumulativeQty, c5FactsB]
  · norm_num +decide [cumulativeQty, c5FactsB]
  · rw [divD_forty_hundred]
    norm_num

/-- Claim C5 (amended): when the distributor fires for a parent in the
target month (parent fact with non-zero quantity, children present, all
children's month quantities zero, parent total quantity non-zero), it
writes, for every child, a fact for the month with stored materials 0 and
quantity `max 0 (childTotal × pct − childPreviousCumulative)` where
`pct = parentCumulativeToDate / parentTotal` (16-digit decimal division)
and the child's previous cumulative is read through the month-keyed join:
it is the cumulative strictly before the month when the child has a fact
row for the target month, and 0 otherwise; the updated-children count is
the number of children.  On the example (child's silence recorded as an
explicit zero-quantity fact) the written quantity is 5. -/
theorem claim5_distribution :
    (∀ (items : List VItem) (facts : List PayFact) (m : ℤ) (p : VItem) (pf : PayFact),
      (items.map (·.id)).Nodup →
      getFact facts p.id m = some pf → pf.qty ≠ 0 →
      directChildren items p.id ≠ [] →
      (∀ c ∈ directChildren items p.id,
        (((getFact facts c.id m).map (·.qty)).getD 0) = 0) →
      p.qty ≠ 0 →
      (∀ c ∈ directChildren items p.id,
        getFact (distributeParent items facts m p).1 c.id m =
          some ⟨c.id, m,
            max 0 (c.qty * divD (cumulativeQty facts p.id m) p.qty -
              childPrevCumulative facts c.id m), 0⟩) ∧
      (distributeParent items facts m p).2.1 = (directChildren items p.id).length ∧
      (distributeParent items facts m p).2.2 =
        divD (cumulativeQty facts p.id m) p.qty) ∧
    getFact (DistributeParentQty c5Items c5FactsA 2).2 2 2 = some ⟨2, 2, 5, 0⟩ := by
  constructor
  · intro items facts m p pf hN hf hq hne hz hpq
    have hne' : ¬(directChildren items p.id).isEmpty = true := by
      simpa [List.isEmpty_iff] using hne
    rw [distributeParent_fires hf hq hne' hz hpq]
    have hcN : ((directChildren items p.id).map (·.id)).Nodup :=
      hN.sublist ((List.filter_sublist items).map (·.id))
    refine ⟨?_, ?_, rfl⟩
    · intro c hc
      have := distr_fold_self m
        (childMonthValue facts m (divD (cumulativeQty facts p.id m) p.qty))
        (directChildren items p.id) facts 0 hcN c hc
      rw [childMonthValue_max] at this
      exact this
    · dsimp only
      rw [distr_fold_count]
      simp
  · norm_num +decide [DistributeParentQty, distributeParent, parentItems, directChildren,
      c5Items, c5FactsA, getFact, cumulativeQty, prevCumulativeQty, childPrevCumulative,
      childMonthValue, upsertFact, divD_forty_hundred]

theorem claim5_witness :
    (distributeParent c5Items c5FactsA 2 ⟨1, none, "P", 0, 100, 0⟩).2.1 =
      (directChildren c5Items (⟨1, none, "P", 0, 100, 0⟩ : VItem).id).length :=
  (claim5_distribution.1 c5Items c5FactsA 2 ⟨1, none, "P", 0, 100, 0⟩ ⟨1, 2, 10, 0⟩
    (by decide) (by decide) (by norm_num) (by decide) (by decide) (by norm_num)).2.1

/-! ## Distribution no-op -/

lemma distributeParent_noop {items : List VItem} {facts : List PayFact} {m : ℤ} {p : VItem}
    (H : ∀ pf, getFact facts p.id m = some pf → pf.qty ≠ 0 →
      ∀ c ∈ directChildren items p.id,
        (((getFact facts c.id m).map (·.qty)).getD 0) ≠ 0) :
    distributeParent items facts m p = (facts, 0, 0) := by
  unfold distributeParent
  cases hf : getFact facts p.id m with
  | none => rfl
  | some pf =>
    dsimp only
    by_cases hq : pf.qty = 0
    · simp [hq]
    · rw [if_neg hq]
      by_cases hemp : (directChildren items p.id).isEmpty
      · simp [hemp]
      · have hany : ((directChildren items p.id).any
            (fun c => !(((getFact facts c.id m).map (·.qty)).getD 0 == 0))) = true := by
          obtain ⟨c, hc⟩ := List.exists_mem_of_ne_nil _
            (by simpa [List.isEmpty_iff] using hemp)
          refine List.any_eq_true.mpr ⟨c, hc, ?_⟩
          simpa using H pf hf hq c hc
        simp [hemp, hany]

lemma distributeQty_noop {items : List VItem} {facts : List PayFact} {m : ℤ}
    (H : ∀ p ∈ parentItems items, ∀ pf, getFact facts p.id m = some pf → pf.qty ≠ 0 →
      ∀ c ∈ directChildren items p.id,
        (((getFact facts c.id m).map (·.qty)).getD 0) ≠ 0) :
    DistributeParentQty items facts m = (⟨0, [m], []⟩, facts) := by
  rw [DistributeParentQty]
  have aux : ∀ ps : List VItem,
      (∀ p ∈ ps, distributeParent items facts m p = (facts, 0, 0)) →
      ∀ res : DistResult,
        (ps.foldl
          (fun acc p =>
            let step := distributeParent items acc.2 m p
            if 0 < step.2.1 then
              ({ itemsUpdated := acc.1.itemsUpdated + step.2.1
                 monthsProcessed := acc.1.monthsProcessed
                 details := acc.1.details ++ [⟨p.id, m, step.2.1, roundDec 2 (step.2.2 * 100)⟩] },
               step.1)
            else (acc.1, step.1)) (res, facts)) = (res, facts) := by
    intro ps hps
    induction ps with
    | nil => intro res; rfl
    | cons p ps ih =>
      intro res
      rw [List.foldl_cons]
      have h := hps p (List.mem_cons_self p ps)
      simp only [h]
      norm_num
      exact ih (fun q hq => hps q (List.mem_cons_of_mem _ hq)) res
  exact aux (parentItems items) (fun p hp => distributeParent_noop (H p hp)) ⟨0, [m], []⟩

/-- Claim C8: when every child of every parent having a non-zero-quantity
fact for the target month already has a non-zero quantity of its own, the
distributor writes nothing and reports `ItemsUpdated = 0`; consequently
running it twice over the same upstream data leaves the pay-application
facts identical to running it once (both runs change nothing). -/
theorem claim8_noop_idempotent :
    ∀ (items : List VItem) (facts : List PayFact) (m : ℤ),
      (∀ p ∈ parentItems items, ∀ pf, getFact facts p.id m = some pf → pf.qty ≠ 0 →
        ∀ c ∈ directChildren items p.id,
          (((getFact facts c.id m).map (·.qty)).getD 0) ≠ 0) →
      (DistributeParentQty items facts m).2 = facts ∧
      (DistributeParentQty items facts m).1.itemsUpdated = 0 ∧
      (DistributeParentQty items (DistributeParentQty items facts m).2 m).2 =
        (DistributeParentQty items facts m).2 := by
  intro items facts m H
  rw [distributeQty_noop H]
  exact ⟨rfl, rfl, by rw [distributeQty_noop H]⟩

/-- Claim C8 items: one parent (id 1) with one child (id 2). -/
def c8Items : List VItem := [⟨1, none, "P", 0, 100, 0⟩, ⟨2, some 1, "C", 0, 50, 0⟩]

/-- Claim C8 facts: both parent and child already have non-zero
quantities for month 2. -/
def c8Facts : List PayFact := [⟨1, 2, 10, 0⟩, ⟨2, 2, 7, 0⟩]

theorem claim8_witness :
    (DistributeParentQty c8Items c8Facts 2).2 = c8Facts ∧
    (DistributeParentQty c8Items c8Facts 2).1.itemsUpdated = 0 ∧
    (DistributeParentQty c8Items (DistributeParentQty c8Items c8Facts 2).2 2).2 =
      (DistributeParentQty c8Items c8Facts 2).2 :=
  claim8_noop_idempotent c8Items c8Facts 2 (by
    intro p hp pf hpf hq c hc
    rw [show parentItems c8Items = [⟨1, none, "P", 0, 100, 0⟩] from by decide] at hp
    rw [List.mem_singleton] at hp
    subst hp
    rw [show directChildren c8Items (1 : ℕ) = [⟨2, some 1, "C", 0, 50, 0⟩] from by decide]
      at hc
    rw [List.mem_singleton] at hc
    subst hc
    rw [show getFact c8Facts (2 : ℕ) (2 : ℤ) = some ⟨2, 2, 7, 0⟩ from by decide]
    norm_num)
